import Mathlib

/-!
Verification development for the multi-stage ingestion pipeline orchestrator
of the LOC prototype repository.

The repository wires its pipeline as an AWS Step Functions state machine
built in CDK code.  The declarative stage chains are embedded here directly
from the three CDK sources:

* src/unnamed/part_005 : CollectImages → ImageToPdf → BedrockDataAutomation →
  LoadToNeptune → ExportToS3 → SyncKnowledgeBase, where every task but the
  last catches States.ALL into a Fail state (fatal) and the last,
  SyncKnowledgeBase, catches States.ALL into a Succeed state (tolerable).
* src/unnamed/part_004 : CollectImages → ImageToPdf → BedrockDataAutomation →
  LoadToNeptune → TriggerKBSync, where every task, the KB-sync one included,
  catches States.ALL into a Fail state (fatal).
* src/backend/lib/chronicling-america-stack.ts : CollectImages → ExtractData →
  ExtractEntities → LoadToNeptune, with no catch clauses at all (an uncaught
  error fails the execution, i.e. every stage is fatal).

The engine driving such a chain (retry loop, failure disposition, execution
record) is the Step Functions runtime together with the spec's ExecutionEngine
abstraction; it is not source code of this repository, so it is modelled from
the spec (sections 3, 4.1, 4.2, 4.3 and 7) and each such definition is marked
accordingly in its doc comment.
-/

set_option maxRecDepth 4000

namespace Pipeline

/-- Classification of a stage error, from the spec's Failure Classifier:
transient errors (throttling, timeout, temporary unavailability) may be
retried, non-transient errors (malformed input, permanent rejection) may not. -/
inductive ErrKind where
  | transient
  | nonTransient
deriving DecidableEq, Repr

/-- An error raised by a stage executor, carrying its classification. -/
structure Err where
  kind : ErrKind
  msg : String
deriving DecidableEq, Repr

/-- Failure disposition of a stage.  In the CDK sources this is determined by
the task's catch clause: addCatch into a Fail state is `fatal`, addCatch into
a Succeed state is `tolerable`, and no catch clause is also `fatal`. -/
inductive Disposition where
  | fatal
  | tolerable
deriving DecidableEq, Repr

/-- Retry policy of a stage: maximum number of invocation attempts plus the
exponential backoff parameters.  In the CDK sources this is the LambdaInvoke
service-exception retry (interval 2 s, 6 attempts, backoff rate 2). -/
structure RetryPolicy where
  maxAttempts : Nat
  backoffBase : Nat
  backoffMultiplier : Nat
deriving DecidableEq, Repr

/-- Backoff delay before a given attempt, per the spec's formula
backoffBase * backoffMultiplier ^ (attempt - 1). -/
def backoffDelay (r : RetryPolicy) (attempt : Nat) : Nat :=
  r.backoffBase * r.backoffMultiplier ^ (attempt - 1)

/-- Static description of one pipeline stage: its state name, the per-attempt
timeout of its executor (in seconds, from the underlying Lambda function's
timeout in the CDK source), its retry policy and its failure disposition. -/
structure StageSpec where
  name : String
  timeout : Nat
  retry : RetryPolicy
  onFailure : Disposition
deriving DecidableEq, Repr

/-- An ordered chain of stages, as built by the CDK next-chaining. -/
structure PipelineDefinition where
  stages : List StageSpec
deriving DecidableEq, Repr

/-- Terminal status of one stage within a run. -/
inductive OutcomeStatus where
  | Succeeded
  | Skipped
  | Failed
deriving DecidableEq, Repr

/-- Recorded outcome of one stage of a run: which stage, how many executor
invocations were made, how it ended, and the captured error if it did not
succeed. -/
structure StageOutcome where
  stageName : String
  attempts : Nat
  status : OutcomeStatus
  error : Option Err
deriving DecidableEq, Repr

/-- Terminal status of a whole run. -/
inductive RunStatus where
  | Running
  | Succeeded
  | Failed
deriving DecidableEq, Repr

/-- Modelled from the spec: the ExecutionRecord of one run — terminal status,
ordered per-stage outcomes, and the most recent successfully-produced payload.
The payload type is abstract because the engine never inspects payload
contents.  Timestamps are not modelled (no real time in the embedding). -/
structure ExecutionRecord (α : Type) where
  status : RunStatus
  stageOutcomes : List StageOutcome
  payload : α
deriving DecidableEq

/-- Behaviour of one external StageExecutor: given the attempt number
(1-based) and the input payload, either an output payload or a classified
error.  One such function per stage name. -/
def Executor (α : Type) : Type := Nat → α → Except Err α

/-- Modelled from the spec: the retry loop of the ExecutionEngine for one
stage (spec section 4.1, steps 1-4).  The first argument gives the result of
each attempt, the second is the current attempt number, the third the
remaining attempt budget.  Returns how many invocations were made together
with the final result: stop on the first success, stop immediately on a
non-transient error, retry a transient error while budget remains. -/
def attemptFrom (f : Nat → Except Err α) : Nat → Nat → Nat × Except Err α
  | _, 0 => (0, Except.error { kind := ErrKind.nonTransient, msg := "no attempt budget" })
  | i, n + 1 =>
    match f i with
    | Except.ok q => (1, Except.ok q)
    | Except.error e =>
      match e.kind, n with
      | ErrKind.nonTransient, _ => (1, Except.error e)
      | ErrKind.transient, 0 => (1, Except.error e)
      | ErrKind.transient, m + 1 =>
        let r := attemptFrom f (i + 1) (m + 1)
        (r.1 + 1, r.2)

/-- Modelled from the spec: run one stage's executor under its retry budget,
starting at attempt 1. -/
def attemptStage (f : Nat → Except Err α) (maxAttempts : Nat) : Nat × Except Err α :=
  attemptFrom f 1 maxAttempts

/-- Modelled from the spec: the stage loop of ExecutionEngine.run (spec
section 4.1).  For each stage in order, run its executor under the retry
budget; on success record a Succeeded outcome and thread the output payload
to the next stage; on failure consult the disposition: fatal stops the run
with status Failed, tolerable records a Skipped outcome carrying the error
and continues with the payload unchanged.  Reaching the end of the list
seals the record with status Succeeded. -/
def runStages {α : Type} (execOf : String → Executor α) :
    List StageSpec → α → ExecutionRecord α
  | [], p => { status := RunStatus.Succeeded, stageOutcomes := [], payload := p }
  | s :: rest, p =>
    match attemptStage (fun i => execOf s.name i p) s.retry.maxAttempts with
    | (n, Except.ok q) =>
      let tail := runStages execOf rest q
      { tail with
        stageOutcomes :=
          { stageName := s.name, attempts := n,
            status := OutcomeStatus.Succeeded, error := none } :: tail.stageOutcomes }
    | (n, Except.error e) =>
      match s.onFailure with
      | Disposition.fatal =>
        { status := RunStatus.Failed,
          stageOutcomes :=
            [{ stageName := s.name, attempts := n,
               status := OutcomeStatus.Failed, error := some e }],
          payload := p }
      | Disposition.tolerable =>
        let tail := runStages execOf rest p
        { tail with
          stageOutcomes :=
            { stageName := s.name, attempts := n,
              status := OutcomeStatus.Skipped, error := some e } :: tail.stageOutcomes }

/-- Invocation events produced by one stage that made n attempts:
(stage name, attempt number) for attempt numbers 1..n, in order. -/
def stageEvents (name : String) (n : Nat) : List (String × Nat) :=
  (List.range n).map (fun k => (name, k + 1))

/-- Modelled from the spec: the chronological trace of executor invocations
made by runStages, as (stage name, attempt number) events.  It mirrors the
recursion of runStages exactly, so the order of events is the order in which
the engine makes the invocations. -/
def runTrace {α : Type} (execOf : String → Executor α) :
    List StageSpec → α → List (String × Nat)
  | [], _ => []
  | s :: rest, p =>
    match attemptStage (fun i => execOf s.name i p) s.retry.maxAttempts with
    | (n, Except.ok q) => stageEvents s.name n ++ runTrace execOf rest q
    | (n, Except.error _) =>
      match s.onFailure with
      | Disposition.fatal => stageEvents s.name n
      | Disposition.tolerable => stageEvents s.name n ++ runTrace execOf rest p

/-- Number of invocations of the named stage's executor recorded in a trace. -/
def invocations (tr : List (String × Nat)) (name : String) : Nat :=
  (tr.filter (fun ev => decide (ev.1 = name))).length

/-- Modelled from the spec: the PipelineDefinition builder's validation
(spec section 4.3) — non-empty chain, unique stage names, positive timeout
and retry budget for every stage, and every stage before the last fatal
(hence at most one tolerable stage, necessarily the last). -/
def validate (d : PipelineDefinition) : Bool :=
  (!d.stages.isEmpty)
    && decide (d.stages.map StageSpec.name).Nodup
    && d.stages.all (fun s => decide (0 < s.retry.maxAttempts) && decide (0 < s.timeout))
    && d.stages.dropLast.all (fun s => decide (s.onFailure = Disposition.fatal))

/-- Modelled from the spec: the public entry point run(definition,
initialPayload).  A definition that fails build-time validation is the only
error surfaced to the caller; otherwise the run always returns an
ExecutionRecord, with all stage-level errors captured inside it. -/
def run {α : Type} (d : PipelineDefinition) (execOf : String → Executor α) (p : α) :
    Except String (ExecutionRecord α) :=
  if validate d then Except.ok (runStages execOf d.stages p)
  else Except.error "PipelineDefinition validation failed"

/-- Retry policy of every LambdaInvoke task in the CDK sources: the
service-exception retry (interval 2 s, 6 attempts, backoff rate 2) that the
construct attaches by default and that the sources keep enabled. -/
def cdkRetry : RetryPolicy :=
  { maxAttempts := 6, backoffBase := 2, backoffMultiplier := 2 }

/-- The CollectImages task: LambdaInvoke of the image-collector function
(timeout 15 min), no catch clause, hence fatal. -/
def collectImagesStage : StageSpec :=
  { name := "CollectImages", timeout := 900, retry := cdkRetry,
    onFailure := Disposition.fatal }

/-- The ImageToPdf task: LambdaInvoke of the image-to-pdf function (timeout
15 min), no catch clause, hence fatal. -/
def imageToPdfStage : StageSpec :=
  { name := "ImageToPdf", timeout := 900, retry := cdkRetry,
    onFailure := Disposition.fatal }

/-- The BedrockDataAutomation task: catches States.ALL into the
ExtractionFailed Fail state, hence fatal. -/
def bedrockDataAutomationStage : StageSpec :=
  { name := "BedrockDataAutomation", timeout := 900, retry := cdkRetry,
    onFailure := Disposition.fatal }

/-- The LoadToNeptune task: catches States.ALL into the NeptuneLoadFailed
Fail state, hence fatal. -/
def loadToNeptuneStage : StageSpec :=
  { name := "LoadToNeptune", timeout := 900, retry := cdkRetry,
    onFailure := Disposition.fatal }

/-- The ExportToS3 task of part_005: catches States.ALL into the
ExportFailed Fail state, hence fatal. -/
def exportToS3Stage : StageSpec :=
  { name := "ExportToS3", timeout := 900, retry := cdkRetry,
    onFailure := Disposition.fatal }

/-- The SyncKnowledgeBase task of part_005: catches States.ALL into the
KBSyncSkipped Succeed state, hence tolerable.  Its Lambda has a 2 min
timeout. -/
def syncKBStage : StageSpec :=
  { name := "SyncKnowledgeBase", timeout := 120, retry := cdkRetry,
    onFailure := Disposition.tolerable }

/-- The TriggerKBSync task of part_004: catches States.ALL into the
KBSyncFailed Fail state, hence fatal.  Its Lambda has a 30 s timeout. -/
def triggerKBSyncStage : StageSpec :=
  { name := "TriggerKBSync", timeout := 30, retry := cdkRetry,
    onFailure := Disposition.fatal }

/-- The ExtractData task of the stack file: no catch clause, hence fatal. -/
def extractDataStage : StageSpec :=
  { name := "ExtractData", timeout := 900, retry := cdkRetry,
    onFailure := Disposition.fatal }

/-- The ExtractEntities task of the stack file: no catch clause, hence
fatal. -/
def extractEntitiesStage : StageSpec :=
  { name := "ExtractEntities", timeout := 900, retry := cdkRetry,
    onFailure := Disposition.fatal }

/-- The stages of part_005 before its terminal KB-sync stage. -/
def part005Front : List StageSpec :=
  [collectImagesStage, imageToPdfStage, bedrockDataAutomationStage,
    loadToNeptuneStage, exportToS3Stage]

/-- The stages of part_004 before its terminal KB-sync stage. -/
def part004Front : List StageSpec :=
  [collectImagesStage, imageToPdfStage, bedrockDataAutomationStage,
    loadToNeptuneStage]

/-- Stage chain of src/unnamed/part_005 (the GraphRAG stack variant): the
next-chain CollectImages → ImageToPdf → BedrockDataAutomation →
LoadToNeptune → ExportToS3 → SyncKnowledgeBase.  Every task but the last
catches States.ALL into a Fail state (fatal); SyncKnowledgeBase catches
States.ALL into the Succeed state KBSyncSkipped (tolerable).  Timeouts are
the seconds of each task's Lambda function timeout. -/
def part005Definition : PipelineDefinition :=
  { stages := part005Front ++ [syncKBStage] }

/-- Stage chain of src/unnamed/part_004: the next-chain CollectImages →
ImageToPdf → BedrockDataAutomation → LoadToNeptune → TriggerKBSync.  Every
task, TriggerKBSync included, catches States.ALL into a Fail state, so every
stage is fatal. -/
def part004Definition : PipelineDefinition :=
  { stages := part004Front ++ [triggerKBSyncStage] }

/-- Stage chain of src/backend/lib/chronicling-america-stack.ts: the
next-chain CollectImages → ExtractData → ExtractEntities → LoadToNeptune,
with no catch clauses, so an error on any stage fails the execution. -/
def stackDefinition : PipelineDefinition :=
  { stages :=
      [collectImagesStage, extractDataStage, extractEntitiesStage,
        loadToNeptuneStage] }

/-- Outcome recorded for a stage that succeeded after n attempts. -/
def okOutcome (name : String) (n : Nat) : StageOutcome :=
  { stageName := name, attempts := n, status := OutcomeStatus.Succeeded, error := none }

/-- Outcome recorded for a tolerable stage that failed after n attempts. -/
def skipOutcome (name : String) (n : Nat) (e : Err) : StageOutcome :=
  { stageName := name, attempts := n, status := OutcomeStatus.Skipped, error := some e }

/-- Outcome recorded for a fatal stage that failed after n attempts. -/
def failOutcome (name : String) (n : Nat) (e : Err) : StageOutcome :=
  { stageName := name, attempts := n, status := OutcomeStatus.Failed, error := some e }

/-- Payload obtained by threading an initial payload through the pure success
functions of a list of stages, in order. -/
def threadG {α : Type} (g : String → α → α) (l : List StageSpec) (p : α) : α :=
  l.foldl (fun q s => g s.name q) p

/-- Executor assignment on which the part_004 and part_005 chains diverge:
every stage succeeds, incrementing a counter payload, except the KB-sync
stage (named TriggerKBSync in part_004 and SyncKnowledgeBase in part_005,
both backed by the same kb-sync-trigger Lambda), which always fails. -/
def kbFailExec : String → Executor Nat := fun name _ p =>
  if name = "TriggerKBSync" ∨ name = "SyncKnowledgeBase" then
    Except.error { kind := ErrKind.nonTransient, msg := "ingestion job rejected" }
  else Except.ok (p + 1)

/-- Executor assignment for concrete test runs: every stage succeeds and
increments a counter payload. -/
def okExec : String → Executor Nat := fun _ _ p => Except.ok (p + 1)

/-- Fixed non-transient test error. -/
def wErrNT : Err := { kind := ErrKind.nonTransient, msg := "malformed payload" }

/-- Fixed transient test error. -/
def wErrT : Err := { kind := ErrKind.transient, msg := "throttled" }

/-- Test stage named a, fatal, two attempts allowed. -/
def wStageA : StageSpec :=
  { name := "a", timeout := 10,
    retry := { maxAttempts := 2, backoffBase := 1, backoffMultiplier := 2 },
    onFailure := Disposition.fatal }

/-- Test stage named b, fatal, two attempts allowed. -/
def wStageB : StageSpec :=
  { name := "b", timeout := 10,
    retry := { maxAttempts := 2, backoffBase := 1, backoffMultiplier := 2 },
    onFailure := Disposition.fatal }

/-- Test stage named b, tolerable, two attempts allowed. -/
def wStageBTol : StageSpec :=
  { name := "b", timeout := 10,
    retry := { maxAttempts := 2, backoffBase := 1, backoffMultiplier := 2 },
    onFailure := Disposition.tolerable }

/-- Test stage named c, fatal, two attempts allowed. -/
def wStageC : StageSpec :=
  { name := "c", timeout := 10,
    retry := { maxAttempts := 2, backoffBase := 1, backoffMultiplier := 2 },
    onFailure := Disposition.fatal }

/-- Executor assignment that fails stage b with the fixed non-transient
error and increments the counter payload on every other stage. -/
def failBExecNT : String → Executor Nat := fun name _ p =>
  if name = "b" then Except.error wErrNT else Except.ok (p + 1)

/-- Executor assignment that fails stage b with the fixed transient error
and increments the counter payload on every other stage. -/
def failBExecT : String → Executor Nat := fun name _ p =>
  if name = "b" then Except.error wErrT else Except.ok (p + 1)

/-- Executor assignment on lists of strings that appends the stage name to
the payload as a marker. -/
def appendExec : String → Executor (List String) := fun name _ p =>
  Except.ok (p ++ [name])

/-- Two-stage test definition with both stages fatal. -/
def wDefAB : PipelineDefinition := { stages := [wStageA, wStageB] }

/-- Two-stage test definition whose last stage is tolerable. -/
def wDefABTol : PipelineDefinition := { stages := [wStageA, wStageBTol] }

/-- Three-stage test definition with all stages fatal. -/
def wDefABC : PipelineDefinition := { stages := [wStageA, wStageB, wStageC] }

theorem attemptFrom_ok {α : Type} (f : Nat → Except Err α) (i n : Nat) (q : α)
    (h : f i = Except.ok q) :
    attemptFrom f i (n + 1) = (1, Except.ok q) := by
  cases n <;> simp [attemptFrom, h]

theorem attemptFrom_nonTransient {α : Type} (f : Nat → Except Err α) (i n : Nat) (e : Err)
    (h : f i = Except.error e) (hk : e.kind = ErrKind.nonTransient) :
    attemptFrom f i (n + 1) = (1, Except.error e) := by
  cases n <;> simp [attemptFrom, h, hk]

theorem attemptFrom_always_transient {α : Type} (f : Nat → Except Err α) (e : Err)
    (hf : ∀ j, f j = Except.error e) (hk : e.kind = ErrKind.transient) :
    ∀ n i, attemptFrom f i (n + 1) = (n + 1, Except.error e) := by
  intro n
  induction n with
  | zero =>
    intro i
    rw [attemptFrom, hf i]
    simp [hk]
  | succ m ih =>
    intro i
    rw [attemptFrom, hf i]
    simp only [hk]
    rw [ih (i + 1)]

theorem attemptFrom_count_le {α : Type} (f : Nat → Except Err α) :
    ∀ n i, (attemptFrom f i n).1 ≤ n := by
  intro n
  induction n with
  | zero => intro i; simp [attemptFrom]
  | succ m ih =>
    intro i
    cases hfi : f i with
    | ok q => simp [attemptFrom, hfi]
    | error e =>
      cases hk : e.kind with
      | nonTransient => simp [attemptFrom, hfi, hk]
      | transient =>
        cases m with
        | zero =>
          rw [attemptFrom, hfi]
          simp [hk]
        | succ m2 =>
          rw [attemptFrom, hfi]
          simp only [hk]
          have := ih (i + 1)
          omega

theorem attemptStage_ok {α : Type} (f : Nat → Except Err α) (m : Nat) (q : α)
    (hm : 0 < m) (h : f 1 = Except.ok q) :
    attemptStage f m = (1, Except.ok q) := by
  cases m with
  | zero => omega
  | succ n => exact attemptFrom_ok f 1 n q h

theorem attemptStage_nonTransient {α : Type} (f : Nat → Except Err α) (m : Nat) (e : Err)
    (hm : 0 < m) (h : f 1 = Except.error e) (hk : e.kind = ErrKind.nonTransient) :
    attemptStage f m = (1, Except.error e) := by
  cases m with
  | zero => omega
  | succ n => exact attemptFrom_nonTransient f 1 n e h hk

theorem attemptStage_always_transient {α : Type} (f : Nat → Except Err α) (m : Nat) (e : Err)
    (hm : 0 < m) (hf : ∀ j, f j = Except.error e) (hk : e.kind = ErrKind.transient) :
    attemptStage f m = (m, Except.error e) := by
  cases m with
  | zero => omega
  | succ n => exact attemptFrom_always_transient f e hf hk n 1

theorem attemptStage_count_le {α : Type} (f : Nat → Except Err α) (m : Nat) :
    (attemptStage f m).1 ≤ m :=
  attemptFrom_count_le f m 1

theorem attemptStage_always_error {α : Type} (f : Nat → Except Err α) (m : Nat) (e : Err)
    (hm : 0 < m) (hf : ∀ j, f j = Except.error e) :
    ∃ n, 0 < n ∧ n ≤ m ∧ attemptStage f m = (n, Except.error e) := by
  cases hk : e.kind with
  | transient =>
    exact ⟨m, hm, le_refl m, attemptStage_always_transient f m e hm hf hk⟩
  | nonTransient =>
    exact ⟨1, Nat.one_pos, hm, attemptStage_nonTransient f m e hm (hf 1) hk⟩

theorem runStages_cons_ok {α : Type} (execOf : String → Executor α)
    (s : StageSpec) (rest : List StageSpec) (p : α) (n : Nat) (q : α)
    (h : attemptStage (fun i => execOf s.name i p) s.retry.maxAttempts = (n, Except.ok q)) :
    runStages execOf (s :: rest) p =
      { runStages execOf rest q with
        stageOutcomes := okOutcome s.name n :: (runStages execOf rest q).stageOutcomes } := by
  rw [runStages, h]
  simp [okOutcome]

theorem runStages_cons_fatal {α : Type} (execOf : String → Executor α)
    (s : StageSpec) (rest : List StageSpec) (p : α) (n : Nat) (e : Err)
    (h : attemptStage (fun i => execOf s.name i p) s.retry.maxAttempts = (n, Except.error e))
    (hd : s.onFailure = Disposition.fatal) :
    runStages execOf (s :: rest) p =
      { status := RunStatus.Failed, stageOutcomes := [failOutcome s.name n e], payload := p } := by
  rw [runStages, h]
  simp [hd, failOutcome]

theorem runStages_cons_tolerable {α : Type} (execOf : String → Executor α)
    (s : StageSpec) (rest : List StageSpec) (p : α) (n : Nat) (e : Err)
    (h : attemptStage (fun i => execOf s.name i p) s.retry.maxAttempts = (n, Except.error e))
    (hd : s.onFailure = Disposition.tolerable) :
    runStages execOf (s :: rest) p =
      { runStages execOf rest p with
        stageOutcomes := skipOutcome s.name n e :: (runStages execOf rest p).stageOutcomes } := by
  rw [runStages, h]
  simp [hd, skipOutcome]

theorem runTrace_cons_ok {α : Type} (execOf : String → Executor α)
    (s : StageSpec) (rest : List StageSpec) (p : α) (n : Nat) (q : α)
    (h : attemptStage (fun i => execOf s.name i p) s.retry.maxAttempts = (n, Except.ok q)) :
    runTrace execOf (s :: rest) p = stageEvents s.name n ++ runTrace execOf rest q := by
  rw [runTrace, h]

theorem runTrace_cons_fatal {α : Type} (execOf : String → Executor α)
    (s : StageSpec) (rest : List StageSpec) (p : α) (n : Nat) (e : Err)
    (h : attemptStage (fun i => execOf s.name i p) s.retry.maxAttempts = (n, Except.error e))
    (hd : s.onFailure = Disposition.fatal) :
    runTrace execOf (s :: rest) p = stageEvents s.name n := by
  rw [runTrace, h]
  simp [hd]

theorem runTrace_cons_tolerable {α : Type} (execOf : String → Executor α)
    (s : StageSpec) (rest : List StageSpec) (p : α) (n : Nat) (e : Err)
    (h : attemptStage (fun i => execOf s.name i p) s.retry.maxAttempts = (n, Except.error e))
    (hd : s.onFailure = Disposition.tolerable) :
    runTrace execOf (s :: rest) p = stageEvents s.name n ++ runTrace execOf rest p := by
  rw [runTrace, h]
  simp [hd]

theorem runStages_append_ok {α : Type} (execOf : String → Executor α) (g : String → α → α)
    (pre rest : List StageSpec)
    (hpos : ∀ s ∈ pre, 0 < s.retry.maxAttempts)
    (hpre : ∀ s ∈ pre, ∀ q, execOf s.name 1 q = Except.ok (g s.name q)) :
    ∀ p : α,
      runStages execOf (pre ++ rest) p =
        { runStages execOf rest (threadG g pre p) with
          stageOutcomes := pre.map (fun s => okOutcome s.name 1)
            ++ (runStages execOf rest (threadG g pre p)).stageOutcomes } := by
  induction pre with
  | nil => intro p; simp [threadG]
  | cons s pre ih =>
    intro p
    have h1 : attemptStage (fun i => execOf s.name i p) s.retry.maxAttempts
        = (1, Except.ok (g s.name p)) :=
      attemptStage_ok _ _ _ (hpos s (by simp)) (hpre s (by simp) p)
    rw [List.cons_append, runStages_cons_ok execOf s (pre ++ rest) p 1 (g s.name p) h1]
    rw [ih (fun t ht => hpos t (by simp [ht])) (fun t ht => hpre t (by simp [ht])) (g s.name p)]
    simp [threadG]

theorem runTrace_append_ok {α : Type} (execOf : String → Executor α) (g : String → α → α)
    (pre rest : List StageSpec)
    (hpos : ∀ s ∈ pre, 0 < s.retry.maxAttempts)
    (hpre : ∀ s ∈ pre, ∀ q, execOf s.name 1 q = Except.ok (g s.name q)) :
    ∀ p : α,
      runTrace execOf (pre ++ rest) p =
        pre.map (fun s => (s.name, 1)) ++ runTrace execOf rest (threadG g pre p) := by
  induction pre with
  | nil => intro p; simp [threadG]
  | cons s pre ih =>
    intro p
    have h1 : attemptStage (fun i => execOf s.name i p) s.retry.maxAttempts
        = (1, Except.ok (g s.name p)) :=
      attemptStage_ok _ _ _ (hpos s (by simp)) (hpre s (by simp) p)
    rw [List.cons_append, runTrace_cons_ok execOf s (pre ++ rest) p 1 (g s.name p) h1]
    rw [ih (fun t ht => hpos t (by simp [ht])) (fun t ht => hpre t (by simp [ht])) (g s.name p)]
    simp [threadG, stageEvents, List.range_succ]

theorem threadG_marker {μ : Type} (mark : String → μ) (l : List StageSpec) :
    ∀ p : List μ,
      threadG (fun name q => q ++ [mark name]) l p = p ++ l.map (fun s => mark s.name) := by
  induction l with
  | nil => intro p; simp [threadG]
  | cons s l ih =>
    intro p
    simp only [threadG, List.foldl_cons] at *
    rw [ih (p ++ [mark s.name])]
    simp

theorem runTrace_names {α : Type} (execOf : String → Executor α) :
    ∀ (l : List StageSpec) (p : α), ∀ ev ∈ runTrace execOf l p, ev.1 ∈ l.map StageSpec.name := by
  intro l
  induction l with
  | nil => intro p ev hev; simp [runTrace] at hev
  | cons s rest ih =>
    intro p ev hev
    rcases hr : attemptStage (fun i => execOf s.name i p) s.retry.maxAttempts with ⟨n, res⟩
    cases res with
    | ok q =>
      rw [runTrace_cons_ok execOf s rest p n q hr] at hev
      rcases List.mem_append.1 hev with h1 | h2
      · simp only [stageEvents, List.mem_map] at h1
        rcases h1 with ⟨k, _, hk⟩
        simp [← hk]
      · simpa using Or.inr (ih q ev h2)
    | error e =>
      cases hd : s.onFailure with
      | fatal =>
        rw [runTrace_cons_fatal execOf s rest p n e hr hd] at hev
        simp only [stageEvents, List.mem_map] at hev
        rcases hev with ⟨k, _, hk⟩
        simp [← hk]
      | tolerable =>
        rw [runTrace_cons_tolerable execOf s rest p n e hr hd] at hev
        rcases List.mem_append.1 hev with h1 | h2
        · simp only [stageEvents, List.mem_map] at h1
          rcases h1 with ⟨k, _, hk⟩
          simp [← hk]
        · simpa using Or.inr (ih p ev h2)

theorem invocations_append (a b : List (String × Nat)) (name : String) :
    invocations (a ++ b) name = invocations a name + invocations b name := by
  simp [invocations]

theorem invocations_events_self (name : String) (n : Nat) :
    invocations (stageEvents name n) name = n := by
  simp only [invocations, stageEvents, List.filter_map, Function.comp]
  rw [List.filter_eq_self.2 (by intro k _; simp)]
  simp

theorem invocations_events_ne (nm nm' : String) (n : Nat) (h : nm ≠ nm') :
    invocations (stageEvents nm n) nm' = 0 := by
  simp [invocations, stageEvents, List.filter_map, Function.comp, h]

theorem invocations_eq_zero_of_not_mem (tr : List (String × Nat)) (name : String)
    (h : ∀ ev ∈ tr, ev.1 ≠ name) : invocations tr name = 0 := by
  simp only [invocations, List.length_eq_zero]
  rw [List.filter_eq_nil_iff]
  intro ev hev
  simp [h ev hev]

theorem validate_nonempty (d : PipelineDefinition) (hv : validate d = true) :
    d.stages ≠ [] := by
  simp only [validate, Bool.and_eq_true, Bool.not_eq_true', List.isEmpty_eq_false_iff_exists_mem] at hv
  rcases hv.1.1.1 with ⟨s, hs⟩
  intro h
  rw [h] at hs
  exact absurd hs (List.not_mem_nil s)

theorem validate_nodup (d : PipelineDefinition) (hv : validate d = true) :
    (d.stages.map StageSpec.name).Nodup := by
  simp only [validate, Bool.and_eq_true, decide_eq_true_eq] at hv
  exact hv.1.1.2

theorem validate_pos (d : PipelineDefinition) (hv : validate d = true) :
    ∀ s ∈ d.stages, 0 < s.retry.maxAttempts := by
  simp only [validate, Bool.and_eq_true, List.all_eq_true, decide_eq_true_eq] at hv
  intro s hs
  exact (hv.1.2 s hs).1

theorem validate_dropLast_fatal (d : PipelineDefinition) (hv : validate d = true) :
    ∀ s ∈ d.stages.dropLast, s.onFailure = Disposition.fatal := by
  simp only [validate, Bool.and_eq_true, List.all_eq_true, decide_eq_true_eq] at hv
  exact hv.2

theorem runStages_errors_captured {α : Type} (execOf : String → Executor α) :
    ∀ (l : List StageSpec) (p : α), ∀ o ∈ (runStages execOf l p).stageOutcomes,
      o.status ≠ OutcomeStatus.Succeeded → o.error.isSome := by
  intro l
  induction l with
  | nil => intro p o ho; simp [runStages] at ho
  | cons s rest ih =>
    intro p o ho hns
    rcases hr : attemptStage (fun i => execOf s.name i p) s.retry.maxAttempts with ⟨n, res⟩
    cases res with
    | ok q =>
      rw [runStages_cons_ok execOf s rest p n q hr] at ho
      rcases List.mem_cons.1 ho with h1 | h2
      · rw [h1] at hns; simp [okOutcome] at hns
      · exact ih q o h2 hns
    | error e =>
      cases hd : s.onFailure with
      | fatal =>
        rw [runStages_cons_fatal execOf s rest p n e hr hd] at ho
        simp only [List.mem_singleton] at ho
        rw [ho]
        simp [failOutcome]
      | tolerable =>
        rw [runStages_cons_tolerable execOf s rest p n e hr hd] at ho
        rcases List.mem_cons.1 ho with h1 | h2
        · rw [h1]; simp [skipOutcome]
        · exact ih p o h2 hns

theorem runTrace_invocations_le {α : Type} (execOf : String → Executor α) :
    ∀ (l : List StageSpec) (p : α) (s : StageSpec),
      (l.map StageSpec.name).Nodup → s ∈ l →
      invocations (runTrace execOf l p) s.name ≤ s.retry.maxAttempts := by
  intro l
  induction l with
  | nil => intro p s _ hs; exact absurd hs (List.not_mem_nil s)
  | cons s0 rest ih =>
    intro p s hnd hs
    have hnd' : (s0.name :: rest.map StageSpec.name).Nodup := by
      rw [← List.map_cons]; exact hnd
    have hnd0 : s0.name ∉ rest.map StageSpec.name := (List.nodup_cons.1 hnd').1
    have hndr : (rest.map StageSpec.name).Nodup := (List.nodup_cons.1 hnd').2
    rcases hr : attemptStage (fun i => execOf s0.name i p) s0.retry.maxAttempts with ⟨n, res⟩
    have hn : n ≤ s0.retry.maxAttempts := by
      have := attemptStage_count_le (fun i => execOf s0.name i p) s0.retry.maxAttempts
      rw [hr] at this
      exact this
    have tailZero : ∀ q : α, s = s0 → invocations (runTrace execOf rest q) s.name = 0 := by
      intro q hss
      apply invocations_eq_zero_of_not_mem
      intro ev hev hcontra
      have := runTrace_names execOf rest q ev hev
      rw [hcontra, hss] at this
      exact hnd0 this
    have headPart : s ∈ rest → invocations (stageEvents s0.name n) s.name = 0 := by
      intro hmem
      apply invocations_events_ne
      intro hcontra
      exact hnd0 (hcontra ▸ List.mem_map_of_mem StageSpec.name hmem)
    rcases List.mem_cons.1 hs with hss | hmem
    · -- the head stage itself: the head block has n ≤ maxAttempts events,
      -- the tail trace mentions other names only
      subst hss
      cases res with
      | ok q =>
        rw [runTrace_cons_ok execOf s rest p n q hr, invocations_append,
          invocations_events_self, tailZero q rfl]
        omega
      | error e =>
        cases hd : s.onFailure with
        | fatal =>
          rw [runTrace_cons_fatal execOf s rest p n e hr hd, invocations_events_self]
          exact hn
        | tolerable =>
          rw [runTrace_cons_tolerable execOf s rest p n e hr hd, invocations_append,
            invocations_events_self, tailZero p rfl]
          omega
    · -- a later stage: the head block contributes nothing
      cases res with
      | ok q =>
        rw [runTrace_cons_ok execOf s0 rest p n q hr, invocations_append, headPart hmem]
        simpa using ih q s hndr hmem
      | error e =>
        cases hd : s0.onFailure with
        | fatal =>
          rw [runTrace_cons_fatal execOf s0 rest p n e hr hd, headPart hmem]
          exact Nat.zero_le _
        | tolerable =>
          rw [runTrace_cons_tolerable execOf s0 rest p n e hr hd, invocations_append,
            headPart hmem]
          simpa using ih p s hndr hmem

theorem runStages_split_fatal {α : Type} (execOf : String → Executor α) (g : String → α → α)
    (pre post : List StageSpec) (sk : StageSpec) (n : Nat) (e : Err) (p0 : α)
    (hpos : ∀ s ∈ pre, 0 < s.retry.maxAttempts)
    (hpre : ∀ s ∈ pre, ∀ q, execOf s.name 1 q = Except.ok (g s.name q))
    (hA : attemptStage (fun i => execOf sk.name i (threadG g pre p0)) sk.retry.maxAttempts
      = (n, Except.error e))
    (hd : sk.onFailure = Disposition.fatal) :
    runStages execOf (pre ++ sk :: post) p0 =
      { status := RunStatus.Failed,
        stageOutcomes := pre.map (fun s => okOutcome s.name 1) ++ [failOutcome sk.name n e],
        payload := threadG g pre p0 } := by
  rw [runStages_append_ok execOf g pre (sk :: post) hpos hpre p0,
    runStages_cons_fatal execOf sk post (threadG g pre p0) n e hA hd]

theorem runTrace_split_fatal {α : Type} (execOf : String → Executor α) (g : String → α → α)
    (pre post : List StageSpec) (sk : StageSpec) (n : Nat) (e : Err) (p0 : α)
    (hpos : ∀ s ∈ pre, 0 < s.retry.maxAttempts)
    (hpre : ∀ s ∈ pre, ∀ q, execOf s.name 1 q = Except.ok (g s.name q))
    (hA : attemptStage (fun i => execOf sk.name i (threadG g pre p0)) sk.retry.maxAttempts
      = (n, Except.error e))
    (hd : sk.onFailure = Disposition.fatal) :
    runTrace execOf (pre ++ sk :: post) p0 =
      pre.map (fun s => (s.name, 1)) ++ stageEvents sk.name n := by
  rw [runTrace_append_ok execOf g pre (sk :: post) hpos hpre p0,
    runTrace_cons_fatal execOf sk post (threadG g pre p0) n e hA hd]

theorem runStages_split_tolerable {α : Type} (execOf : String → Executor α) (g : String → α → α)
    (pre post : List StageSpec) (sk : StageSpec) (n : Nat) (e : Err) (p0 : α)
    (hpos : ∀ s ∈ pre, 0 < s.retry.maxAttempts)
    (hpre : ∀ s ∈ pre, ∀ q, execOf s.name 1 q = Except.ok (g s.name q))
    (hA : attemptStage (fun i => execOf sk.name i (threadG g pre p0)) sk.retry.maxAttempts
      = (n, Except.error e))
    (hd : sk.onFailure = Disposition.tolerable) :
    runStages execOf (pre ++ sk :: post) p0 =
      { runStages execOf post (threadG g pre p0) with
        stageOutcomes := pre.map (fun s => okOutcome s.name 1)
          ++ skipOutcome sk.name n e
            :: (runStages execOf post (threadG g pre p0)).stageOutcomes } := by
  rw [runStages_append_ok execOf g pre (sk :: post) hpos hpre p0,
    runStages_cons_tolerable execOf sk post (threadG g pre p0) n e hA hd]

theorem runTrace_split_tolerable {α : Type} (execOf : String → Executor α) (g : String → α → α)
    (pre post : List StageSpec) (sk : StageSpec) (n : Nat) (e : Err) (p0 : α)
    (hpos : ∀ s ∈ pre, 0 < s.retry.maxAttempts)
    (hpre : ∀ s ∈ pre, ∀ q, execOf s.name 1 q = Except.ok (g s.name q))
    (hA : attemptStage (fun i => execOf sk.name i (threadG g pre p0)) sk.retry.maxAttempts
      = (n, Except.error e))
    (hd : sk.onFailure = Disposition.tolerable) :
    runTrace execOf (pre ++ sk :: post) p0 =
      pre.map (fun s => (s.name, 1)) ++ stageEvents sk.name n
        ++ runTrace execOf post (threadG g pre p0) := by
  rw [runTrace_append_ok execOf g pre (sk :: post) hpos hpre p0,
    runTrace_cons_tolerable execOf sk post (threadG g pre p0) n e hA hd]
  rw [List.append_assoc]

theorem runStages_allOk {α : Type} (execOf : String → Executor α) (g : String → α → α)
    (l : List StageSpec) (p0 : α)
    (hpos : ∀ s ∈ l, 0 < s.retry.maxAttempts)
    (hall : ∀ s ∈ l, ∀ q, execOf s.name 1 q = Except.ok (g s.name q)) :
    runStages execOf l p0 =
      { status := RunStatus.Succeeded,
        stageOutcomes := l.map (fun s => okOutcome s.name 1),
        payload := threadG g l p0 } := by
  have h := runStages_append_ok execOf g l [] hpos hall p0
  simp only [List.append_nil] at h
  rw [h]
  simp [runStages]

theorem runTrace_allOk {α : Type} (execOf : String → Executor α) (g : String → α → α)
    (l : List StageSpec) (p0 : α)
    (hpos : ∀ s ∈ l, 0 < s.retry.maxAttempts)
    (hall : ∀ s ∈ l, ∀ q, execOf s.name 1 q = Except.ok (g s.name q)) :
    runTrace execOf l p0 = l.map (fun s => (s.name, 1)) := by
  have h := runTrace_append_ok execOf g l [] hpos hall p0
  simp only [List.append_nil] at h
  rw [h]
  simp [runTrace]

theorem names_disjoint_of_nodup (pre post : List StageSpec) (sk : StageSpec)
    (hnd : ((pre ++ sk :: post).map StageSpec.name).Nodup) :
    (∀ t ∈ pre, t.name ≠ sk.name) ∧
    (∀ t ∈ pre, ∀ s ∈ post, t.name ≠ s.name) ∧
    (∀ s ∈ post, sk.name ≠ s.name) := by
  rw [List.map_append, List.map_cons] at hnd
  rcases List.nodup_append.1 hnd with ⟨_, h2, hdisj⟩
  have hsk : sk.name ∉ post.map StageSpec.name := (List.nodup_cons.1 h2).1
  refine ⟨?_, ?_, ?_⟩
  · intro t ht heq
    exact hdisj (List.mem_map_of_mem StageSpec.name ht) (heq ▸ List.mem_cons_self _ _)
  · intro t ht s hs heq
    exact hdisj (List.mem_map_of_mem StageSpec.name ht)
      (List.mem_cons_of_mem _ (heq ▸ List.mem_map_of_mem StageSpec.name hs))
  · intro s hs heq
    exact hsk (heq ▸ List.mem_map_of_mem StageSpec.name hs)

theorem invocations_premap_zero (pre : List StageSpec) (nm : String)
    (h : ∀ t ∈ pre, t.name ≠ nm) :
    invocations (pre.map (fun s => (s.name, 1))) nm = 0 := by
  apply invocations_eq_zero_of_not_mem
  intro ev hev
  rcases List.mem_map.1 hev with ⟨t, ht, hte⟩
  rw [← hte]
  exact h t ht

theorem invocations_trace_zero {α : Type} (execOf : String → Executor α)
    (l : List StageSpec) (p : α) (nm : String)
    (h : ∀ t ∈ l, t.name ≠ nm) :
    invocations (runTrace execOf l p) nm = 0 := by
  apply invocations_eq_zero_of_not_mem
  intro ev hev heq
  have := runTrace_names execOf l p ev hev
  rcases List.mem_map.1 this with ⟨t, ht, hte⟩
  exact h t ht (hte.trans heq)

/-- C1: for a pipeline whose last stage is the only tolerable stage, if all
earlier stages succeed and the last stage fails on every attempt, the run's
terminal status is Succeeded, the last stage's outcome is Skipped carrying
the error, and every earlier stage's outcome is Succeeded. -/
theorem c1_tolerable_terminal {α : Type} (execOf : String → Executor α) (g : String → α → α)
    (pre : List StageSpec) (sN : StageSpec) (e : Err) (p0 : α)
    (hv : validate { stages := pre ++ [sN] } = true)
    (htol : sN.onFailure = Disposition.tolerable)
    (hpre : ∀ s ∈ pre, ∀ q, execOf s.name 1 q = Except.ok (g s.name q))
    (hfail : ∀ i q, execOf sN.name i q = Except.error e) :
    ∃ n, 0 < n ∧ n ≤ sN.retry.maxAttempts ∧
      runStages execOf (pre ++ [sN]) p0 =
        { status := RunStatus.Succeeded,
          stageOutcomes := pre.map (fun s => okOutcome s.name 1)
            ++ [skipOutcome sN.name n e],
          payload := threadG g pre p0 } := by
  have hposAll := validate_pos { stages := pre ++ [sN] } hv
  have hpos : ∀ s ∈ pre, 0 < s.retry.maxAttempts :=
    fun s hs => hposAll s (List.mem_append_left _ hs)
  have hposN : 0 < sN.retry.maxAttempts :=
    hposAll sN (List.mem_append_right _ (List.mem_singleton_self _))
  obtain ⟨n, hn0, hnle, hA⟩ := attemptStage_always_error
    (fun i => execOf sN.name i (threadG g pre p0)) sN.retry.maxAttempts e hposN
    (fun j => hfail j _)
  refine ⟨n, hn0, hnle, ?_⟩
  have h := runStages_split_tolerable execOf g pre [] sN n e p0 hpos hpre hA htol
  rw [h]
  simp [runStages]

/-- C1 witness: a two-stage pipeline with a fatal first stage and a
tolerable last stage whose executor always fails non-transiently reports a
Succeeded run with the first stage Succeeded and the last Skipped. -/
theorem c1_tolerable_terminal_witness :
    ∃ n, 0 < n ∧ n ≤ wStageBTol.retry.maxAttempts ∧
      runStages failBExecNT ([wStageA] ++ [wStageBTol]) 0 =
        { status := RunStatus.Succeeded,
          stageOutcomes := [wStageA].map (fun s => okOutcome s.name 1)
            ++ [skipOutcome wStageBTol.name n wErrNT],
          payload := threadG (fun _ p => p + 1) [wStageA] 0 } :=
  c1_tolerable_terminal failBExecNT (fun _ p => p + 1) [wStageA] wStageBTol wErrNT 0
    (by decide) (by decide)
    (by intro s hs q; fin_cases hs; rfl)
    (by intro i q; rfl)

/-- C2: with executors that all succeed, a validated pipeline invokes each
stage's executor exactly once, in exact definition order, records a
Succeeded terminal outcome for every stage, and finishes with run status
Succeeded — the trace equality shows no stage is invoked before every prior
stage's outcome is sealed. -/
theorem c2_definition_order {α : Type} (d : PipelineDefinition)
    (execOf : String → Executor α) (g : String → α → α) (p0 : α)
    (hv : validate d = true)
    (hall : ∀ s ∈ d.stages, ∀ q, execOf s.name 1 q = Except.ok (g s.name q)) :
    runTrace execOf d.stages p0 = d.stages.map (fun s => (s.name, 1)) ∧
    (runStages execOf d.stages p0).stageOutcomes
      = d.stages.map (fun s => okOutcome s.name 1) ∧
    (runStages execOf d.stages p0).status = RunStatus.Succeeded := by
  have hpos := validate_pos d hv
  have hrec := runStages_allOk execOf g d.stages p0 hpos hall
  refine ⟨runTrace_allOk execOf g d.stages p0 hpos hall, ?_, ?_⟩
  · rw [hrec]
  · rw [hrec]

/-- C2 witness: the two-stage test pipeline run under the all-succeeding
executor is invoked once per stage, in order, with all outcomes Succeeded. -/
theorem c2_definition_order_witness :
    runTrace okExec wDefAB.stages 0 = wDefAB.stages.map (fun s => (s.name, 1)) ∧
    (runStages okExec wDefAB.stages 0).stageOutcomes
      = wDefAB.stages.map (fun s => okOutcome s.name 1) ∧
    (runStages okExec wDefAB.stages 0).status = RunStatus.Succeeded :=
  c2_definition_order wDefAB okExec (fun _ p => p + 1) 0 (by decide)
    (by intro s hs q; rfl)

/-- C6: with executors that each append their stage's marker to the payload,
a validated pipeline finishes with status Succeeded and a final payload that
is the initial payload followed by all stage markers in definition order —
each stage received exactly the previous stage's output. -/
theorem c6_payload_threading {μ : Type} (d : PipelineDefinition) (mark : String → μ)
    (execOf : String → Executor (List μ)) (p0 : List μ)
    (hv : validate d = true)
    (hall : ∀ s ∈ d.stages, ∀ q, execOf s.name 1 q = Except.ok (q ++ [mark s.name])) :
    (runStages execOf d.stages p0).status = RunStatus.Succeeded ∧
    (runStages execOf d.stages p0).payload = p0 ++ d.stages.map (fun s => mark s.name) := by
  have hpos := validate_pos d hv
  have hrec := runStages_allOk execOf (fun name q => q ++ [mark name]) d.stages p0 hpos hall
  rw [hrec]
  exact ⟨rfl, threadG_marker mark d.stages p0⟩

/-- C6 witness: on the two-stage test pipeline, name-appending executors
produce the payload holding both stage names in definition order. -/
theorem c6_payload_threading_witness :
    (runStages appendExec wDefAB.stages []).status = RunStatus.Succeeded ∧
    (runStages appendExec wDefAB.stages []).payload
      = [] ++ wDefAB.stages.map (fun s => s.name) :=
  c6_payload_threading wDefAB (fun name => name) appendExec [] (by decide)
    (by intro s hs q; rfl)

/-- C3: in a validated pipeline where the stages before stage K succeed,
stage K is fatal and its executor fails on every attempt, the run status is
Failed, the record holds exactly K outcomes, and the executors of the stages
after K are never invoked. -/
theorem c3_fatal_short_circuit {α : Type} (execOf : String → Executor α) (g : String → α → α)
    (pre post : List StageSpec) (sk : StageSpec) (e : Err) (p0 : α)
    (hv : validate { stages := pre ++ sk :: post } = true)
    (hfatal : sk.onFailure = Disposition.fatal)
    (hpre : ∀ s ∈ pre, ∀ q, execOf s.name 1 q = Except.ok (g s.name q))
    (hfail : ∀ i q, execOf sk.name i q = Except.error e) :
    (runStages execOf (pre ++ sk :: post) p0).status = RunStatus.Failed ∧
    (runStages execOf (pre ++ sk :: post) p0).stageOutcomes.length = pre.length + 1 ∧
    ∀ s ∈ post, invocations (runTrace execOf (pre ++ sk :: post) p0) s.name = 0 := by
  have hposAll := validate_pos { stages := pre ++ sk :: post } hv
  have hpos : ∀ s ∈ pre, 0 < s.retry.maxAttempts :=
    fun s hs => hposAll s (List.mem_append_left _ hs)
  have hposk : 0 < sk.retry.maxAttempts :=
    hposAll sk (List.mem_append_right _ (List.mem_cons_self _ _))
  obtain ⟨n, hn0, hnle, hA⟩ := attemptStage_always_error
    (fun i => execOf sk.name i (threadG g pre p0)) sk.retry.maxAttempts e hposk
    (fun j => hfail j _)
  have hrec := runStages_split_fatal execOf g pre post sk n e p0 hpos hpre hA hfatal
  have htr := runTrace_split_fatal execOf g pre post sk n e p0 hpos hpre hA hfatal
  obtain ⟨hpresk, hprepost, hskpost⟩ :=
    names_disjoint_of_nodup pre post sk (validate_nodup { stages := pre ++ sk :: post } hv)
  refine ⟨by rw [hrec], by rw [hrec]; simp, ?_⟩
  intro s hs
  rw [htr, invocations_append,
    invocations_premap_zero pre s.name (fun t ht => hprepost t ht s hs),
    invocations_events_ne sk.name s.name n (hskpost s hs)]

/-- C3 witness: on the three-stage test pipeline whose middle stage always
fails non-transiently, the run fails with two recorded outcomes and the
third stage's executor is never invoked. -/
theorem c3_fatal_short_circuit_witness :
    (runStages failBExecNT ([wStageA] ++ wStageB :: [wStageC]) 0).status = RunStatus.Failed ∧
    (runStages failBExecNT ([wStageA] ++ wStageB :: [wStageC]) 0).stageOutcomes.length
      = [wStageA].length + 1 ∧
    ∀ s ∈ [wStageC],
      invocations (runTrace failBExecNT ([wStageA] ++ wStageB :: [wStageC]) 0) s.name = 0 :=
  c3_fatal_short_circuit failBExecNT (fun _ p => p + 1) [wStageA] [wStageC] wStageB wErrNT 0
    (by decide) (by decide)
    (by intro s hs q; fin_cases hs; rfl)
    (by intro i q; rfl)

/-- C4: the engine invokes every stage's executor at most its
retry.maxAttempts times; a stage whose executor raises a transient error on
every attempt is invoked exactly retry.maxAttempts times, after which the
run halts with status Failed if the stage is fatal, and continues into the
remaining stages with a Skipped outcome if it is tolerable. -/
theorem c4_retry_bound {α : Type} (execOf : String → Executor α) (g : String → α → α)
    (pre post : List StageSpec) (sk : StageSpec) (e : Err) (p0 : α)
    (hnd : ((pre ++ sk :: post).map StageSpec.name).Nodup)
    (hpos : ∀ s ∈ pre ++ sk :: post, 0 < s.retry.maxAttempts)
    (hpre : ∀ s ∈ pre, ∀ q, execOf s.name 1 q = Except.ok (g s.name q))
    (hfail : ∀ i q, execOf sk.name i q = Except.error e)
    (hk : e.kind = ErrKind.transient) :
    (∀ s ∈ pre ++ sk :: post, ∀ p : α,
      invocations (runTrace execOf (pre ++ sk :: post) p) s.name ≤ s.retry.maxAttempts) ∧
    invocations (runTrace execOf (pre ++ sk :: post) p0) sk.name = sk.retry.maxAttempts ∧
    (sk.onFailure = Disposition.fatal →
      (runStages execOf (pre ++ sk :: post) p0).status = RunStatus.Failed ∧
      (runStages execOf (pre ++ sk :: post) p0).stageOutcomes.length = pre.length + 1) ∧
    (sk.onFailure = Disposition.tolerable →
      (runStages execOf (pre ++ sk :: post) p0).status
        = (runStages execOf post (threadG g pre p0)).status ∧
      (runStages execOf (pre ++ sk :: post) p0).stageOutcomes
        = pre.map (fun s => okOutcome s.name 1)
          ++ skipOutcome sk.name sk.retry.maxAttempts e
            :: (runStages execOf post (threadG g pre p0)).stageOutcomes) := by
  have hposPre : ∀ s ∈ pre, 0 < s.retry.maxAttempts :=
    fun s hs => hpos s (List.mem_append_left _ hs)
  have hposk : 0 < sk.retry.maxAttempts :=
    hpos sk (List.mem_append_right _ (List.mem_cons_self _ _))
  have hA : attemptStage (fun i => execOf sk.name i (threadG g pre p0)) sk.retry.maxAttempts
      = (sk.retry.maxAttempts, Except.error e) :=
    attemptStage_always_transient _ sk.retry.maxAttempts e hposk (fun j => hfail j _) hk
  obtain ⟨hpresk, hprepost, hskpost⟩ := names_disjoint_of_nodup pre post sk hnd
  refine ⟨fun s hs p => runTrace_invocations_le execOf _ p s hnd hs, ?_, ?_, ?_⟩
  · cases hd : sk.onFailure with
    | fatal =>
      rw [runTrace_split_fatal execOf g pre post sk _ e p0 hposPre hpre hA hd,
        invocations_append, invocations_premap_zero pre sk.name hpresk,
        invocations_events_self]
      omega
    | tolerable =>
      rw [runTrace_split_tolerable execOf g pre post sk _ e p0 hposPre hpre hA hd,
        invocations_append, invocations_append,
        invocations_premap_zero pre sk.name hpresk, invocations_events_self,
        invocations_trace_zero execOf post (threadG g pre p0) sk.name
          (fun t ht heq => hskpost t ht heq.symm)]
      omega
  · intro hd
    rw [runStages_split_fatal execOf g pre post sk _ e p0 hposPre hpre hA hd]
    simp
  · intro hd
    rw [runStages_split_tolerable execOf g pre post sk _ e p0 hposPre hpre hA hd]
    simp

/-- C4 witness: on the three-stage test pipeline whose middle fatal stage
always fails transiently with a budget of two attempts, that stage is
invoked exactly twice and the run halts with two outcomes. -/
theorem c4_retry_bound_witness :
    (∀ s ∈ [wStageA] ++ wStageB :: [wStageC], ∀ p : Nat,
      invocations (runTrace failBExecT ([wStageA] ++ wStageB :: [wStageC]) p) s.name
        ≤ s.retry.maxAttempts) ∧
    invocations (runTrace failBExecT ([wStageA] ++ wStageB :: [wStageC]) 0) wStageB.name
      = wStageB.retry.maxAttempts ∧
    (wStageB.onFailure = Disposition.fatal →
      (runStages failBExecT ([wStageA] ++ wStageB :: [wStageC]) 0).status = RunStatus.Failed ∧
      (runStages failBExecT ([wStageA] ++ wStageB :: [wStageC]) 0).stageOutcomes.length
        = [wStageA].length + 1) ∧
    (wStageB.onFailure = Disposition.tolerable →
      (runStages failBExecT ([wStageA] ++ wStageB :: [wStageC]) 0).status
        = (runStages failBExecT [wStageC] (threadG (fun _ p => p + 1) [wStageA] 0)).status ∧
      (runStages failBExecT ([wStageA] ++ wStageB :: [wStageC]) 0).stageOutcomes
        = [wStageA].map (fun s => okOutcome s.name 1)
          ++ skipOutcome wStageB.name wStageB.retry.maxAttempts wErrT
            :: (runStages failBExecT [wStageC]
                (threadG (fun _ p => p + 1) [wStageA] 0)).stageOutcomes) :=
  c4_retry_bound failBExecT (fun _ p => p + 1) [wStageA] [wStageC] wStageB wErrT 0
    (by decide) (by decide)
    (by intro s hs q; fin_cases hs; rfl)
    (by intro i q; rfl)
    (by decide)

/-- C5: a stage whose executor raises a non-transient error is invoked
exactly once — no retry — and then its onFailure disposition is applied:
a fatal stage seals the record with a single-attempt Failed outcome, a
tolerable stage records a single-attempt Skipped outcome and the run
continues. -/
theorem c5_nontransient_single {α : Type} (execOf : String → Executor α) (g : String → α → α)
    (pre post : List StageSpec) (sk : StageSpec) (e : Err) (p0 : α)
    (hnd : ((pre ++ sk :: post).map StageSpec.name).Nodup)
    (hpos : ∀ s ∈ pre ++ sk :: post, 0 < s.retry.maxAttempts)
    (hpre : ∀ s ∈ pre, ∀ q, execOf s.name 1 q = Except.ok (g s.name q))
    (hfail : ∀ i q, execOf sk.name i q = Except.error e)
    (hk : e.kind = ErrKind.nonTransient) :
    invocations (runTrace execOf (pre ++ sk :: post) p0) sk.name = 1 ∧
    (sk.onFailure = Disposition.fatal →
      (runStages execOf (pre ++ sk :: post) p0).stageOutcomes
        = pre.map (fun s => okOutcome s.name 1) ++ [failOutcome sk.name 1 e]) ∧
    (sk.onFailure = Disposition.tolerable →
      (runStages execOf (pre ++ sk :: post) p0).stageOutcomes
        = pre.map (fun s => okOutcome s.name 1)
          ++ skipOutcome sk.name 1 e
            :: (runStages execOf post (threadG g pre p0)).stageOutcomes) := by
  have hposPre : ∀ s ∈ pre, 0 < s.retry.maxAttempts :=
    fun s hs => hpos s (List.mem_append_left _ hs)
  have hposk : 0 < sk.retry.maxAttempts :=
    hpos sk (List.mem_append_right _ (List.mem_cons_self _ _))
  have hA : attemptStage (fun i => execOf sk.name i (threadG g pre p0)) sk.retry.maxAttempts
      = (1, Except.error e) :=
    attemptStage_nonTransient _ sk.retry.maxAttempts e hposk (hfail 1 _) hk
  obtain ⟨hpresk, hprepost, hskpost⟩ := names_disjoint_of_nodup pre post sk hnd
  refine ⟨?_, ?_, ?_⟩
  · cases hd : sk.onFailure with
    | fatal =>
      rw [runTrace_split_fatal execOf g pre post sk _ e p0 hposPre hpre hA hd,
        invocations_append, invocations_premap_zero pre sk.name hpresk,
        invocations_events_self]
    | tolerable =>
      rw [runTrace_split_tolerable execOf g pre post sk _ e p0 hposPre hpre hA hd,
        invocations_append, invocations_append,
        invocations_premap_zero pre sk.name hpresk, invocations_events_self,
        invocations_trace_zero execOf post (threadG g pre p0) sk.name
          (fun t ht heq => hskpost t ht heq.symm)]
  · intro hd
    rw [runStages_split_fatal execOf g pre post sk _ e p0 hposPre hpre hA hd]
  · intro hd
    rw [runStages_split_tolerable execOf g pre post sk _ e p0 hposPre hpre hA hd]

/-- C5 witness: on the three-stage test pipeline whose middle fatal stage
fails non-transiently, that stage is invoked exactly once and its Failed
outcome records a single attempt. -/
theorem c5_nontransient_single_witness :
    invocations (runTrace failBExecNT ([wStageA] ++ wStageB :: [wStageC]) 0) wStageB.name = 1 ∧
    (wStageB.onFailure = Disposition.fatal →
      (runStages failBExecNT ([wStageA] ++ wStageB :: [wStageC]) 0).stageOutcomes
        = [wStageA].map (fun s => okOutcome s.name 1) ++ [failOutcome wStageB.name 1 wErrNT]) ∧
    (wStageB.onFailure = Disposition.tolerable →
      (runStages failBExecNT ([wStageA] ++ wStageB :: [wStageC]) 0).stageOutcomes
        = [wStageA].map (fun s => okOutcome s.name 1)
          ++ skipOutcome wStageB.name 1 wErrNT
            :: (runStages failBExecNT [wStageC]
                (threadG (fun _ p => p + 1) [wStageA] 0)).stageOutcomes) :=
  c5_nontransient_single failBExecNT (fun _ p => p + 1) [wStageA] [wStageC] wStageB wErrNT 0
    (by decide) (by decide)
    (by intro s hs q; fin_cases hs; rfl)
    (by intro i q; rfl)
    (by decide)

/-- C7: run never surfaces a stage-level error to its caller — for a
definition that passes build-time validation it returns an ExecutionRecord
whatever the executors do, with every non-Succeeded outcome carrying its
captured error, and the only error it ever returns is the build-time
validation failure. -/
theorem c7_no_error_propagation {α : Type} (d : PipelineDefinition)
    (execOf : String → Executor α) (p0 : α) :
    (validate d = true →
      run d execOf p0 = Except.ok (runStages execOf d.stages p0) ∧
      ∀ o ∈ (runStages execOf d.stages p0).stageOutcomes,
        o.status ≠ OutcomeStatus.Succeeded → o.error.isSome) ∧
    (validate d = false →
      run d execOf p0 = Except.error "PipelineDefinition validation failed") := by
  constructor
  · intro hv
    exact ⟨by simp [run, hv],
      fun o ho => runStages_errors_captured execOf d.stages p0 o ho⟩
  · intro hv
    simp [run, hv]

/-- C7 witness: the part_005 pipeline run under the executor assignment
whose KB-sync stage always fails returns an ok ExecutionRecord, while the
empty definition is rejected with the validation error. -/
theorem c7_no_error_propagation_witness :
    run part005Definition kbFailExec 0
      = Except.ok (runStages kbFailExec part005Definition.stages 0) ∧
    run { stages := [] } kbFailExec 0
      = Except.error "PipelineDefinition validation failed" :=
  ⟨((c7_no_error_propagation part005Definition kbFailExec 0).1 (by decide)).1,
    (c7_no_error_propagation { stages := [] } kbFailExec 0).2 (by decide)⟩

/-- C8: when a tolerable stage fails, the run continues exactly as the run
of the remaining stages on the failing stage's input payload, unchanged —
the failure handling only prepends the Skipped outcome, and if the failing
stage was the last one the final record's payload is that input payload
itself. -/
theorem c8_tolerable_frame {α : Type} (execOf : String → Executor α)
    (sk : StageSpec) (post : List StageSpec) (e : Err) (p : α)
    (htol : sk.onFailure = Disposition.tolerable)
    (hpos : 0 < sk.retry.maxAttempts)
    (hfail : ∀ i q, execOf sk.name i q = Except.error e) :
    ∃ n, 0 < n ∧ n ≤ sk.retry.maxAttempts ∧
      runStages execOf (sk :: post) p =
        { status := (runStages execOf post p).status,
          stageOutcomes := skipOutcome sk.name n e :: (runStages execOf post p).stageOutcomes,
          payload := (runStages execOf post p).payload } ∧
      (post = [] → (runStages execOf (sk :: post) p).payload = p) := by
  obtain ⟨n, hn0, hnle, hA⟩ := attemptStage_always_error
    (fun i => execOf sk.name i p) sk.retry.maxAttempts e hpos (fun j => hfail j _)
  have h := runStages_cons_tolerable execOf sk post p n e hA htol
  refine ⟨n, hn0, hnle, h, ?_⟩
  intro hpost
  rw [h]
  subst hpost
  simp [runStages]

/-- C8 witness: a single tolerable stage that always fails leaves the
initial payload 7 untouched in the final record. -/
theorem c8_tolerable_frame_witness :
    ∃ n, 0 < n ∧ n ≤ wStageBTol.retry.maxAttempts ∧
      runStages failBExecNT (wStageBTol :: []) 7 =
        { status := (runStages failBExecNT [] 7).status,
          stageOutcomes := skipOutcome wStageBTol.name n wErrNT
            :: (runStages failBExecNT [] 7).stageOutcomes,
          payload := (runStages failBExecNT [] 7).payload } ∧
      (([] : List StageSpec) = [] → (runStages failBExecNT (wStageBTol :: []) 7).payload = 7) :=
  c8_tolerable_frame failBExecNT wStageBTol [] wErrNT 7 (by decide) (by decide)
    (by intro i q; rfl)

/-- C9: every validated PipelineDefinition has at most one tolerable stage
and every stage before the last is fatal (so any tolerable stage is the
last); in the part_005 instance the terminal SyncKnowledgeBase stage is the
unique tolerable stage and is the last stage of the chain. -/
theorem c9_tolerable_last (d : PipelineDefinition) (hv : validate d = true) :
    ((d.stages.filter (fun s => decide (s.onFailure = Disposition.tolerable))).length ≤ 1 ∧
      ∀ s ∈ d.stages.dropLast, s.onFailure = Disposition.fatal) ∧
    (validate part005Definition = true ∧
      (part005Definition.stages.filter
          (fun s => decide (s.onFailure = Disposition.tolerable))).map StageSpec.name
        = ["SyncKnowledgeBase"] ∧
      part005Definition.stages.getLast?.map StageSpec.name = some "SyncKnowledgeBase") := by
  have hfatal := validate_dropLast_fatal d hv
  refine ⟨⟨?_, hfatal⟩, by decide, by decide, by decide⟩
  by_cases hne : d.stages = []
  · simp [hne]
  · have hsplit := List.dropLast_append_getLast hne
    have hflt : d.stages.dropLast.filter
        (fun s => decide (s.onFailure = Disposition.tolerable)) = [] := by
      rw [List.filter_eq_nil_iff]
      intro s hs
      simp [hfatal s hs]
    calc (d.stages.filter (fun s => decide (s.onFailure = Disposition.tolerable))).length
        = ((d.stages.dropLast ++ [d.stages.getLast hne]).filter
            (fun s => decide (s.onFailure = Disposition.tolerable))).length := by
          rw [hsplit]
      _ ≤ 1 := by
          rw [List.filter_append, hflt]
          simp only [List.nil_append]
          cases hlf : [d.stages.getLast hne].filter
              (fun s => decide (s.onFailure = Disposition.tolerable)) with
          | nil => simp
          | cons x xs =>
            have := List.length_filter_le
              (fun s => decide (s.onFailure = Disposition.tolerable)) [d.stages.getLast hne]
            rw [hlf] at this
            simpa using this

/-- C9 witness: the part_005 definition itself validates and satisfies the
at-most-one-tolerable-and-last invariant. -/
theorem c9_tolerable_last_witness :
    (((part005Definition.stages.filter
        (fun s => decide (s.onFailure = Disposition.tolerable))).length ≤ 1 ∧
      ∀ s ∈ part005Definition.stages.dropLast, s.onFailure = Disposition.fatal) ∧
    (validate part005Definition = true ∧
      (part005Definition.stages.filter
          (fun s => decide (s.onFailure = Disposition.tolerable))).map StageSpec.name
        = ["SyncKnowledgeBase"] ∧
      part005Definition.stages.getLast?.map StageSpec.name = some "SyncKnowledgeBase")) :=
  c9_tolerable_last part005Definition (by decide)

/-- C10 counterexample: the part_004 and part_005 state-machine definitions
are not execution-equivalent — under the executor assignment where every
stage succeeds except the KB-sync stage, part_004 reports Failed while
part_005 reports Succeeded, and in general their terminal statuses do not
always agree. -/
theorem c10_counterexample :
    (runStages kbFailExec part004Definition.stages 0).status = RunStatus.Failed ∧
    (runStages kbFailExec part005Definition.stages 0).status = RunStatus.Succeeded ∧
    ¬ (∀ (execOf : String → Executor Nat) (p0 : Nat),
        (runStages execOf part004Definition.stages p0).status
          = (runStages execOf part005Definition.stages p0).status) := by
  have h4 : (runStages kbFailExec part004Definition.stages 0).status = RunStatus.Failed := by
    decide
  have h5 : (runStages kbFailExec part005Definition.stages 0).status = RunStatus.Succeeded := by
    decide
  refine ⟨h4, h5, fun hall => ?_⟩
  have := hall kbFailExec 0
  rw [h4, h5] at this
  exact RunStatus.noConfusion this

/-- C10 amended: the part_004 and part_005 definitions agree on the terminal
status when every stage executor succeeds (both report Succeeded), but they
are not execution-equivalent: when every stage succeeds except the KB-sync
stage (TriggerKBSync in part_004, SyncKnowledgeBase in part_005, both backed
by the same kb-sync-trigger Lambda), part_004 reports Failed while part_005
reports Succeeded. -/
theorem c10_divergence :
    (∀ (α : Type) (execOf : String → Executor α) (g : String → α → α) (p0 : α),
      (∀ (name : String) (q : α), execOf name 1 q = Except.ok (g name q)) →
      (runStages execOf part004Definition.stages p0).status = RunStatus.Succeeded ∧
      (runStages execOf part005Definition.stages p0).status = RunStatus.Succeeded) ∧
    (∀ (α : Type) (execOf : String → Executor α) (g : String → α → α) (p0 : α) (e : Err),
      (∀ (name : String) (q : α), name ≠ "TriggerKBSync" → name ≠ "SyncKnowledgeBase" →
        execOf name 1 q = Except.ok (g name q)) →
      (∀ (i : Nat) (q : α), execOf "TriggerKBSync" i q = Except.error e) →
      (∀ (i : Nat) (q : α), execOf "SyncKnowledgeBase" i q = Except.error e) →
      (runStages execOf part004Definition.stages p0).status = RunStatus.Failed ∧
      (runStages execOf part005Definition.stages p0).status = RunStatus.Succeeded) := by
  constructor
  · intro α execOf g p0 hall
    constructor
    · rw [runStages_allOk execOf g part004Definition.stages p0 (by decide)
        (fun s _ q => hall s.name q)]
    · rw [runStages_allOk execOf g part005Definition.stages p0 (by decide)
        (fun s _ q => hall s.name q)]
  · intro α execOf g p0 e hok h004 h005
    have hpre4 : ∀ s ∈ part004Front, ∀ q, execOf s.name 1 q = Except.ok (g s.name q) := by
      intro s hs q
      fin_cases hs <;> exact hok _ q (by decide) (by decide)
    have hpre5 : ∀ s ∈ part005Front, ∀ q, execOf s.name 1 q = Except.ok (g s.name q) := by
      intro s hs q
      fin_cases hs <;> exact hok _ q (by decide) (by decide)
    have h4s : part004Definition.stages = part004Front ++ triggerKBSyncStage :: [] := rfl
    have h5s : part005Definition.stages = part005Front ++ syncKBStage :: [] := rfl
    constructor
    · obtain ⟨n, _, _, hA⟩ := attemptStage_always_error
        (fun i => execOf triggerKBSyncStage.name i (threadG g part004Front p0))
        triggerKBSyncStage.retry.maxAttempts e (by decide) (fun j => h004 j _)
      rw [h4s, runStages_split_fatal execOf g part004Front [] triggerKBSyncStage n e p0
        (by decide) hpre4 hA (by decide)]
    · obtain ⟨n, _, _, hA⟩ := attemptStage_always_error
        (fun i => execOf syncKBStage.name i (threadG g part005Front p0))
        syncKBStage.retry.maxAttempts e (by decide) (fun j => h005 j _)
      rw [h5s, runStages_split_tolerable execOf g part005Front [] syncKBStage n e p0
        (by decide) hpre5 hA (by decide)]
      simp [runStages]

/-- C10 witness: concrete instantiations of both halves of the amended
statement, on the counter payload. -/
theorem c10_divergence_witness :
    ((runStages okExec part004Definition.stages 0).status = RunStatus.Succeeded ∧
      (runStages okExec part005Definition.stages 0).status = RunStatus.Succeeded) ∧
    ((runStages kbFailExec part004Definition.stages 0).status = RunStatus.Failed ∧
      (runStages kbFailExec part005Definition.stages 0).status = RunStatus.Succeeded) :=
  ⟨c10_divergence.1 Nat okExec (fun _ p => p + 1) 0 (fun _ q => rfl),
    c10_divergence.2 Nat kbFailExec (fun _ p => p + 1) 0
      { kind := ErrKind.nonTransient, msg := "ingestion job rejected" }
      (by
        intro name q h1 h2
        simp only [kbFailExec]
        rw [if_neg (by simp [h1, h2])])
      (by intro i q; rfl)
      (by intro i q; rfl)⟩

end Pipeline
